import Mathlib

/-!
Verification of the core components of the stb-tester video-testing
framework: the mask algebra (_stbt/mask.py), the template-matching engine,
the frame-delivery loop and the underrun recovery logic (_stbt/core.py).

Images and heatmaps are modelled as nested lists; machine floats are
modelled as rationals. External OpenCV and GStreamer primitives are either
modelled explicitly (and documented as models of the external library) or
taken as parameters where only their shape behaviour affects the verified
property. Types defined in _stbt/types.py, which is not among the sources,
are modelled from the spec and documented as such.
-/

set_option allowUnsafeReducibility true
attribute [semireducible] Rat.add Rat.sub Rat.mul Rat.inv

namespace Stbt

/-- Modelled from the spec: the Region type lives in _stbt/types.py which is
not among the sources. Per the spec it is an integer rectangle with derived
fields right = x + width and bottom = y + height; we store the extents. -/
structure Region where
  x : Int
  y : Int
  right : Int
  bottom : Int
deriving DecidableEq

/-- Region construction from (x, y, width, height) as in the python
constructor call Region(x, y, width, height). -/
def Region.mk' (x y width height : Int) : Region :=
  ⟨x, y, x + width, y + height⟩

def Region.width (r : Region) : Int := r.right - r.x

def Region.height (r : Region) : Int := r.bottom - r.y

/-- Modelled from the spec: a Region value of the mask algebra is either the
unset value None (denoting no region), the unbounded Region.ALL, or a
finite rectangle. -/
inductive RegionSpec where
  | noRegion
  | all
  | rect (r : Region)
deriving DecidableEq

/-- Modelled from the spec: geometric intersection of Regions
(Region.intersect in _stbt/types.py, not among the sources). The result is
the overlap rectangle when the overlap has positive area, and the no-region
value otherwise; an unset operand gives no region, and Region.ALL behaves
as the rectangle with unbounded extents (spec section 8 states
Region.intersect(r, Region.ALL) == r). The comment at _stbt/mask.py line 32
records that Region.intersect can return None for no region. -/
def RegionSpec.intersect : RegionSpec → RegionSpec → RegionSpec
  | .noRegion, _ => .noRegion
  | _, .noRegion => .noRegion
  | .all, .all => .all
  | .all, .rect b =>
      if b.x < b.right ∧ b.y < b.bottom then .rect b else .noRegion
  | .rect a, .all =>
      if a.x < a.right ∧ a.y < a.bottom then .rect a else .noRegion
  | .rect a, .rect b =>
      let x := max a.x b.x
      let y := max a.y b.y
      let r := min a.right b.right
      let bo := min a.bottom b.bottom
      if x < r ∧ y < bo then .rect ⟨x, y, r, bo⟩ else .noRegion

/-- A rasterised mask buffer: height times width times channels of uint8
values, as produced by Mask.to_array. -/
abbrev Arr3 := List (List (List Nat))

def Arr3.ofFn (h w c : Nat) (f : Nat → Nat → Nat → Nat) : Arr3 :=
  (List.range h).map fun y =>
    (List.range w).map fun x =>
      (List.range c).map fun k => f y x k

def Arr3.height (a : Arr3) : Nat := a.length

def Arr3.width (a : Arr3) : Nat := (a.headD []).length

def Arr3.channels (a : Arr3) : Nat := ((a.headD []).headD []).length

/-- Bitwise complement of a uint8 value (numpy invert on uint8). -/
def byteNot (v : Nat) : Nat := 255 - v

/-- Elementwise combination of two buffers (numpy binary operators). -/
def Arr3.map2 (f : Nat → Nat → Nat) (a b : Arr3) : Arr3 :=
  List.zipWith (fun ra rb =>
    List.zipWith (fun pa pb => List.zipWith f pa pb) ra rb) a b

/-- Elementwise transformation of a buffer (numpy unary operators). -/
def Arr3.pointwise (f : Nat → Nat) (a : Arr3) : Arr3 :=
  a.map fun row => row.map fun px => px.map f

inductive MOp where
  | add
  | sub
deriving DecidableEq

/-- The mask tree of _stbt/mask.py: exactly one of image, binop, region is
set per node, plus the invert flag (fields _image, _binop, _region,
_invert of class Mask, and the BinOp dataclass). -/
inductive Mask where
  | image (invert : Bool) (img : Arr3)
  | binop (invert : Bool) (op : MOp) (left right : Mask)
  | region (invert : Bool) (rs : RegionSpec)
deriving DecidableEq

def applyInvert (invert : Bool) (a : Arr3) : Arr3 :=
  if invert then Arr3.pointwise byteNot a else a

/-- Model of the external OpenCV BGR-to-intensity conversion:
Y = round(0.299 R + 0.587 G + 0.114 B). -/
def grayBGR (b g r : Nat) : Nat := (114 * b + 587 * g + 299 * r + 500) / 1000

/-- Modelled from the spec: channel conversion performed by load_image
(_stbt/imgutils.py, not among the sources) when the stored mask image does
not have the requested number of channels: a single channel is replicated,
three channels are reduced to intensity. -/
def convertChannels (img : Arr3) (c : Nat) : Option Arr3 :=
  if img.channels = c then some img
  else if img.channels = 1 ∧ c = 3 then
    some (img.map fun row => row.map fun px => List.replicate 3 (px.headD 0))
  else if img.channels = 3 ∧ c = 1 then
    some (img.map fun row => row.map fun px =>
      [grayBGR (px.getD 0 0) (px.getD 1 0) (px.getD 2 0)])
  else none

/-- The region branch of Mask.to_array (_stbt/mask.py lines 65 to 69): an
all-zero buffer with the intersection of the stored region and the frame
extent filled with 255 on every channel. -/
def regionArray (rs : RegionSpec) (h w c : Nat) : Arr3 :=
  match RegionSpec.intersect rs (.rect (Region.mk' 0 0 (w : Int) (h : Int))) with
  | .rect r =>
      Arr3.ofFn h w c fun y x _ =>
        if r.x ≤ (x : Int) ∧ (x : Int) < r.right ∧ r.y ≤ (y : Int) ∧ (y : Int) < r.bottom
        then 255 else 0
  | _ => Arr3.ofFn h w c fun _ _ _ => 0

/-- Mask.to_array from _stbt/mask.py lines 45 to 75, for a requested shape
(h, w, c): an image node must match the height and width exactly (else the
error result none) and is channel converted; a binop node combines the
operand buffers with bitwise or (op +) or bitwise and-not (op -); a region
node fills the intersection of the region with the frame extent; finally
the invert flag complements the buffer. -/
def Mask.toArray : Mask → Nat → Nat → Nat → Option Arr3
  | .image inv img, h, w, c =>
      if img.height = h ∧ img.width = w then
        (convertChannels img c).map (applyInvert inv)
      else none
  | .binop inv op l r, h, w, c =>
      (l.toArray h w c).bind fun la =>
      (r.toArray h w c).bind fun ra =>
      some (applyInvert inv (match op with
        | .add => Arr3.map2 Nat.lor la ra
        | .sub => Arr3.map2 Nat.land la (Arr3.pointwise byteNot ra)))
  | .region inv rs, h, w, c =>
      some (applyInvert inv (regionArray rs h w c))

/-- Mask.__add__ (_stbt/mask.py line 101): Mask(BinOp(+, self, other)). -/
def Mask.add (a b : Mask) : Mask := .binop false .add a b

/-- Mask.__sub__ (_stbt/mask.py line 107): Mask(BinOp(-, self, other)). -/
def Mask.sub (a b : Mask) : Mask := .binop false .sub a b

/-- Mask.__invert__ (_stbt/mask.py line 113): a copy of the node with the
invert flag toggled. -/
def Mask.inv : Mask → Mask
  | .image i img => .image (!i) img
  | .binop i op l r => .binop (!i) op l r
  | .region i rs => .region (!i) rs

/-- The same node with the invert flag replaced. -/
def Mask.withInvert : Mask → Bool → Mask
  | .image _ img, i => .image i img
  | .binop _ op l r, i => .binop i op l r
  | .region _ rs, i => .region i rs

theorem applyInvert_false (a : Arr3) : applyInvert false a = a := rfl

theorem applyInvert_true (a : Arr3) : applyInvert true a = Arr3.pointwise byteNot a := rfl

theorem Mask.toArray_withInvert (m : Mask) (h w c : Nat) :
    (m.withInvert true).toArray h w c =
      ((m.withInvert false).toArray h w c).map (Arr3.pointwise byteNot) := by
  cases m with
  | image i img =>
      simp only [Mask.withInvert, Mask.toArray]
      split
      · cases hcv : convertChannels img c <;>
          simp [hcv, applyInvert]
      · simp
  | binop i op l r =>
      simp only [Mask.withInvert, Mask.toArray]
      cases l.toArray h w c <;> cases r.toArray h w c <;>
        simp [applyInvert]
  | region i rs =>
      simp [Mask.withInvert, Mask.toArray, applyInvert]

/-- C4: rasterizing Mask(a) + Mask(b) produces the bitwise or of the two
operand coverage buffers, rasterizing Mask(a) - Mask(b) produces the
bitwise and of the left coverage with the complement of the right coverage
(for every requested shape, hence also for degenerate zero-area regions),
and a mask with the invert flag set rasterizes to the complement of the
underlying buffer. -/
theorem mask_binop_invert_coverage :
    (∀ (a b : Mask) (h w c : Nat) (A B : Arr3),
        a.toArray h w c = some A → b.toArray h w c = some B →
        (Mask.add a b).toArray h w c = some (Arr3.map2 Nat.lor A B) ∧
        (Mask.sub a b).toArray h w c =
          some (Arr3.map2 Nat.land A (Arr3.pointwise byteNot B))) ∧
    (∀ (m : Mask) (h w c : Nat) (A : Arr3),
        (m.withInvert false).toArray h w c = some A →
        (m.withInvert true).toArray h w c = some (Arr3.pointwise byteNot A)) := by
  constructor
  · intro a b h w c A B ha hb
    constructor <;> simp [Mask.add, Mask.sub, Mask.toArray, ha, hb, applyInvert]
  · intro m h w c A hA
    rw [Mask.toArray_withInvert, hA, Option.map_some']

def maskWitnessA : Mask := .region false (.rect (Region.mk' 0 0 1 2))

def maskWitnessB : Mask := .region false (.rect (Region.mk' 1 0 1 2))

def maskWitnessArrA : Arr3 := [[[255], [0]], [[255], [0]]]

def maskWitnessArrB : Arr3 := [[[0], [255]], [[0], [255]]]

theorem mask_binop_invert_coverage_witness :
    (Mask.add maskWitnessA maskWitnessB).toArray 2 2 1 =
      some (Arr3.map2 Nat.lor maskWitnessArrA maskWitnessArrB) ∧
    (Mask.sub maskWitnessA maskWitnessB).toArray 2 2 1 =
      some (Arr3.map2 Nat.land maskWitnessArrA (Arr3.pointwise byteNot maskWitnessArrB)) ∧
    (maskWitnessA.withInvert true).toArray 2 2 1 =
      some (Arr3.pointwise byteNot maskWitnessArrA) := by
  refine ⟨?_, ?_, ?_⟩
  · exact (mask_binop_invert_coverage.1 maskWitnessA maskWitnessB 2 2 1
      maskWitnessArrA maskWitnessArrB (by decide) (by decide)).1
  · exact (mask_binop_invert_coverage.1 maskWitnessA maskWitnessB 2 2 1
      maskWitnessArrA maskWitnessArrB (by decide) (by decide)).2
  · exact mask_binop_invert_coverage.2 maskWitnessA 2 2 1 maskWitnessArrA (by decide)

/-- C9 counterexample: intersecting Region(0,0,5,5) with the unset Region,
or with the zero-area Region(10,10,0,0), yields no region rather than
Region(0,0,5,5) itself, and a mask built from such an intersection
rasterizes to empty coverage rather than to the coverage of
Region(0,0,5,5): the zero-area or unset Region is not an identity element
of geometric intersection. -/
theorem region_intersect_identity_counterexample :
    RegionSpec.intersect (.rect (Region.mk' 0 0 5 5)) .noRegion = .noRegion ∧
    RegionSpec.intersect (.rect (Region.mk' 0 0 5 5))
      (.rect (Region.mk' 10 10 0 0)) = .noRegion ∧
    RegionSpec.noRegion ≠ RegionSpec.rect (Region.mk' 0 0 5 5) ∧
    (Mask.region false (RegionSpec.intersect (.rect (Region.mk' 0 0 5 5))
        .noRegion)).toArray 2 2 1 ≠
      (Mask.region false (.rect (Region.mk' 0 0 5 5))).toArray 2 2 1 := by
  decide

/-- C9 amended: a zero-area or unset Region denotes no region and is the
absorbing element of geometric intersection, not the identity element: for
every Region operand, intersecting it with a zero-area or unset Region
yields no region, and rasterizing a mask built from such an intersection
gives all-zero coverage for every requested shape. -/
theorem region_noregion_absorbing (a : RegionSpec) (z : Region)
    (hz : z.right ≤ z.x ∨ z.bottom ≤ z.y) :
    RegionSpec.intersect a (.rect z) = .noRegion ∧
    RegionSpec.intersect a .noRegion = .noRegion ∧
    ∀ h w c, (Mask.region false (RegionSpec.intersect a (.rect z))).toArray h w c =
      some (Arr3.ofFn h w c fun _ _ _ => 0) := by
  have hzc : ¬(z.x < z.right ∧ z.y < z.bottom) := by omega
  have h1 : RegionSpec.intersect a (.rect z) = .noRegion := by
    cases a with
    | noRegion => rfl
    | all => simp only [RegionSpec.intersect]; rw [if_neg hzc]
    | rect a =>
        simp only [RegionSpec.intersect]
        rw [if_neg]
        rintro ⟨hx, hy⟩
        rcases hz with h | h
        · exact absurd (lt_of_le_of_lt (le_max_right a.x z.x)
            (lt_of_lt_of_le hx (min_le_right a.right z.right))) (not_lt.mpr h)
        · exact absurd (lt_of_le_of_lt (le_max_right a.y z.y)
            (lt_of_lt_of_le hy (min_le_right a.bottom z.bottom))) (not_lt.mpr h)
  have h2 : RegionSpec.intersect a .noRegion = .noRegion := by
    cases a <;> rfl
  refine ⟨h1, h2, fun h w c => ?_⟩
  rw [h1]
  simp [Mask.toArray, regionArray, RegionSpec.intersect, applyInvert]

theorem region_noregion_absorbing_witness :
    RegionSpec.intersect (.rect (Region.mk' 1 1 3 3))
      (.rect (Region.mk' 0 0 0 7)) = .noRegion ∧
    RegionSpec.intersect (.rect (Region.mk' 1 1 3 3)) .noRegion = .noRegion ∧
    (Mask.region false (RegionSpec.intersect (.rect (Region.mk' 1 1 3 3))
        (.rect (Region.mk' 0 0 0 7)))).toArray 2 3 1 =
      some (Arr3.ofFn 2 3 1 fun _ _ _ => 0) := by
  obtain ⟨h1, h2, h3⟩ := region_noregion_absorbing (.rect (Region.mk' 1 1 3 3))
    (Region.mk' 0 0 0 7) (by decide)
  exact ⟨h1, h2, h3 2 3 1⟩

/-- The possible contents of the latest-frame cell (Display.last_frame):
initially empty, later a frame tagged with its capture timestamp, or an
exception propagated from the pipeline thread. -/
inductive CellValue where
  | noFrame
  | frame (time : ℚ)
  | error
deriving DecidableEq

/-- The possible outcomes of Display.get_frame: a returned frame, a
RuntimeError re-raised from a propagated pipeline error, the NoVideo
failure, or still waiting (blocked in the condition wait) when the
observation schedule runs out. -/
inductive GetFrameResult where
  | frame (time : ℚ)
  | raised
  | noVideo
  | waiting
deriving DecidableEq

/-- Whether the cell satisfies the return condition of the loop: it holds a
frame timestamped strictly after since (line 1400). -/
def CellValue.qualifying (since : ℚ) : CellValue → Bool
  | .frame ft => decide (since < ft)
  | _ => false

def CellValue.isError : CellValue → Bool
  | .error => true
  | _ => false

/-- The wait loop of Display.get_frame (_stbt/core.py lines 1398 to 1415).
Each iteration reads the cell and then the clock; the loop is modelled over
the finite schedule of such (cell, clock) observations. A frame timestamped
strictly after since is returned at once (the cell is checked before the
deadline); an exception in the cell is raised; otherwise, if the clock has
passed the deadline the loop breaks and NoVideo is raised, else the loop
waits for the next observation. -/
def getFrameLoop (since endTime : ℚ) : List (CellValue × ℚ) → GetFrameResult
  | [] => .waiting
  | (c, t) :: rest =>
      match c with
      | .frame ft =>
          if since < ft then .frame ft
          else if endTime < t then .noVideo else getFrameLoop since endTime rest
      | .error => .raised
      | .noFrame =>
          if endTime < t then .noVideo else getFrameLoop since endTime rest

/-- Display.get_frame (lines 1389 to 1396): the deadline is the call time
plus timeout_secs, and since defaults to the call time minus timeout_secs. -/
def getFrame (timeoutSecs : ℚ) (since : Option ℚ) (t0 : ℚ)
    (obs : List (CellValue × ℚ)) : GetFrameResult :=
  getFrameLoop (since.getD (t0 - timeoutSecs)) (t0 + timeoutSecs) obs

/-- An observation on which the loop neither returns nor raises. -/
def CellValue.nonQualifying (since : ℚ) (c : CellValue) : Bool :=
  !c.qualifying since && !c.isError

/-- C3: get_frame returns the latest-frame cell content as soon as the cell
holds a frame timestamped strictly after since (with since defaulting to
the call time minus the timeout), raises the propagated error to the
caller if the cell holds an exception, and fails with NoVideo once the
timeout deadline has elapsed without a qualifying frame having appeared. -/
theorem getFrame_contract (since endTime : ℚ) :
    (∀ (timeoutSecs t0 : ℚ) (obs : List (CellValue × ℚ)),
        getFrame timeoutSecs none t0 obs =
          getFrameLoop (t0 - timeoutSecs) (t0 + timeoutSecs) obs) ∧
    (∀ (pre rest : List (CellValue × ℚ)) (ft t : ℚ),
        (∀ p ∈ pre, p.1.nonQualifying since = true ∧ p.2 ≤ endTime) →
        since < ft →
        getFrameLoop since endTime (pre ++ (CellValue.frame ft, t) :: rest) =
          .frame ft) ∧
    (∀ (pre rest : List (CellValue × ℚ)) (t : ℚ),
        (∀ p ∈ pre, p.1.nonQualifying since = true ∧ p.2 ≤ endTime) →
        getFrameLoop since endTime (pre ++ (CellValue.error, t) :: rest) =
          .raised) ∧
    (∀ obs : List (CellValue × ℚ),
        (∀ p ∈ obs, p.1.nonQualifying since = true) →
        (∃ p ∈ obs, endTime < p.2) →
        getFrameLoop since endTime obs = .noVideo) := by
  refine ⟨fun _ _ _ => rfl, ?_, ?_, ?_⟩
  · intro pre rest ft t hpre hft
    induction pre with
    | nil => simp [getFrameLoop, hft]
    | cons p ps ih =>
        obtain ⟨hq, ht⟩ := hpre p (List.mem_cons_self p ps)
        have hrec := ih fun q hq => hpre q (List.mem_cons_of_mem p hq)
        obtain ⟨c, tc⟩ := p
        cases c with
        | noFrame =>
            simp only [CellValue.nonQualifying] at hq
            simp [getFrameLoop, not_lt.mpr ht, hrec]
        | frame f =>
            simp only [CellValue.nonQualifying, CellValue.qualifying,
              CellValue.isError, Bool.and_eq_true, Bool.not_eq_true',
              decide_eq_false_iff_not] at hq
            simp [getFrameLoop, hq.1, not_lt.mpr ht, hrec]
        | error =>
            simp [CellValue.nonQualifying, CellValue.isError] at hq
  · intro pre rest t hpre
    induction pre with
    | nil => simp [getFrameLoop]
    | cons p ps ih =>
        obtain ⟨hq, ht⟩ := hpre p (List.mem_cons_self p ps)
        have hrec := ih fun q hq => hpre q (List.mem_cons_of_mem p hq)
        obtain ⟨c, tc⟩ := p
        cases c with
        | noFrame => simp [getFrameLoop, not_lt.mpr ht, hrec]
        | frame f =>
            simp only [CellValue.nonQualifying, CellValue.qualifying,
              CellValue.isError, Bool.and_eq_true, Bool.not_eq_true',
              decide_eq_false_iff_not] at hq
            simp [getFrameLoop, hq.1, not_lt.mpr ht, hrec]
        | error =>
            simp [CellValue.nonQualifying, CellValue.isError] at hq
  · intro obs hq hex
    induction obs with
    | nil => simp at hex
    | cons p ps ih =>
        obtain ⟨hqp, _⟩ := List.forall_mem_cons.mp hq
        obtain ⟨c, tc⟩ := p
        cases c with
        | noFrame =>
            by_cases hlt : endTime < tc
            · simp [getFrameLoop, hlt]
            · have hex2 : ∃ p ∈ ps, endTime < p.2 := by
                rcases hex with ⟨q, hmem, hqt⟩
                rcases List.mem_cons.mp hmem with h | h
                · rw [h] at hqt; exact absurd hqt hlt
                · exact ⟨q, h, hqt⟩
              simp [getFrameLoop, hlt,
                ih (List.forall_mem_cons.mp hq).2 hex2]
        | frame f =>
            simp only [CellValue.nonQualifying, CellValue.qualifying,
              CellValue.isError, Bool.and_eq_true, Bool.not_eq_true',
              decide_eq_false_iff_not] at hqp
            by_cases hlt : endTime < tc
            · simp [getFrameLoop, hqp.1, hlt]
            · have hex2 : ∃ p ∈ ps, endTime < p.2 := by
                rcases hex with ⟨q, hmem, hqt⟩
                rcases List.mem_cons.mp hmem with h | h
                · rw [h] at hqt; exact absurd hqt hlt
                · exact ⟨q, h, hqt⟩
              simp [getFrameLoop, hqp.1, hlt,
                ih (List.forall_mem_cons.mp hq).2 hex2]
        | error =>
            simp [CellValue.nonQualifying, CellValue.isError] at hqp

theorem getFrame_contract_witness :
    getFrame 10 none 100 [(CellValue.noFrame, 100), (CellValue.frame 85, 101)] =
      getFrameLoop 90 110 [(CellValue.noFrame, 100), (CellValue.frame 85, 101)] ∧
    getFrameLoop 90 110 [(CellValue.noFrame, 100), (CellValue.frame 85, 101),
        (CellValue.frame 99, 102)] = .frame 99 ∧
    getFrameLoop 90 110 [(CellValue.noFrame, 100), (CellValue.error, 101)] =
      .raised ∧
    getFrameLoop 90 110 [(CellValue.noFrame, 100), (CellValue.frame 85, 111)] =
      .noVideo := by
  obtain ⟨h1, h2, h3, h4⟩ := getFrame_contract 90 110
  refine ⟨?_, ?_, ?_, ?_⟩
  · have := h1 10 100 [(CellValue.noFrame, 100), (CellValue.frame 85, 101)]
    norm_num at this ⊢
    exact this
  · exact h2 [(CellValue.noFrame, 100), (CellValue.frame 85, 101)] [] 99 102
      (by decide) (by norm_num)
  · exact h3 [(CellValue.noFrame, 100)] [] 101 (by decide)
  · exact h4 [(CellValue.noFrame, 100), (CellValue.frame 85, 111)]
      (by decide) ⟨(CellValue.frame 85, 111), by simp, by norm_num⟩

/-- The restart-on-loss state of Display: whether the underrun_timeout slot
is set (self.underrun_timeout is not None, and the GObject timeout object
is truthy), whether a GLib timeout source is currently pending, how many
times restart_source ran, and how many times a new debounce timer was
armed. -/
structure UnderrunState where
  timeoutSlot : Bool
  scheduled : Bool
  restarts : Nat
  arms : Nat
deriving DecidableEq

/-- The events the debounce logic reacts to: an underrun signal from the
source queue (Display.on_underrun, lines 1477 to 1483), a running signal
(Display.on_running, lines 1485 to 1491), and the debounce timer firing
(which invokes Display.restart_source, lines 1493 to 1499, and returns
False so the GLib source is removed). -/
inductive UnderrunEvent where
  | underrun
  | running
  | fire
deriving DecidableEq

/-- One handler invocation: on_underrun arms a 2-second timer only when the
slot is empty and otherwise ignores the signal; on_running cancels an
outstanding timer and clears the slot; a firing timer runs restart_source
once and is then removed (restart_source does not clear the slot). -/
def underrunStep (s : UnderrunState) : UnderrunEvent → UnderrunState
  | .underrun =>
      if s.timeoutSlot then s
      else { s with timeoutSlot := true, scheduled := true, arms := s.arms + 1 }
  | .running =>
      if s.timeoutSlot then { s with timeoutSlot := false, scheduled := false }
      else s
  | .fire =>
      if s.scheduled then { s with restarts := s.restarts + 1, scheduled := false }
      else s

def underrunRun (s : UnderrunState) (evs : List UnderrunEvent) : UnderrunState :=
  evs.foldl underrunStep s

/-- Display.__init__ lines 1321 to 1322: no timer outstanding. -/
def initialUnderrunState : UnderrunState := ⟨false, false, 0, 0⟩

theorem underrunRun_armed_stable (s : UnderrunState) (h : s.timeoutSlot = true) :
    ∀ k, underrunRun s (List.replicate k .underrun) = s := by
  intro k
  induction k with
  | zero => rfl
  | succ n ih =>
      simpa [underrunRun, List.replicate_succ, List.foldl_cons, underrunStep, h]
        using ih

/-- C8: with restart-on-loss enabled, N consecutive underrun signals within
the debounce window (that is, before the armed timer fires) arm exactly one
debounce timer and, when that timer fires, trigger exactly one restart of
the source pipeline, not N restarts; an underrun signal arriving while a
debounce timer is already outstanding never arms a second timer. -/
theorem underrun_single_restart (n : Nat) (hn : 1 ≤ n) :
    (underrunRun initialUnderrunState
        (List.replicate n .underrun ++ [.fire])).restarts = 1 ∧
    (underrunRun initialUnderrunState
        (List.replicate n .underrun ++ [.fire])).arms = 1 ∧
    (∀ s : UnderrunState, s.timeoutSlot = true → underrunStep s .underrun = s) := by
  obtain ⟨m, rfl⟩ : ∃ m, n = m + 1 := ⟨n - 1, by omega⟩
  have harmed : underrunRun initialUnderrunState
      (List.replicate (m + 1) .underrun) = ⟨true, true, 0, 1⟩ := by
    rw [List.replicate_succ]
    have h1 : underrunStep initialUnderrunState .underrun = ⟨true, true, 0, 1⟩ := by
      decide
    calc underrunRun initialUnderrunState (.underrun :: List.replicate m .underrun)
        = underrunRun ⟨true, true, 0, 1⟩ (List.replicate m .underrun) := by
          simp [underrunRun, List.foldl_cons, h1]
      _ = ⟨true, true, 0, 1⟩ := underrunRun_armed_stable _ rfl m
  have harmed' : List.foldl underrunStep initialUnderrunState
      (List.replicate (m + 1) UnderrunEvent.underrun) = ⟨true, true, 0, 1⟩ := harmed
  refine ⟨?_, ?_, fun s hs => by simp [underrunStep, hs]⟩ <;>
    simp [underrunRun, List.foldl_append, harmed', underrunStep]

theorem underrun_single_restart_witness :
    (underrunRun initialUnderrunState
        (List.replicate 3 .underrun ++ [.fire])).restarts = 1 ∧
    (underrunRun initialUnderrunState
        (List.replicate 3 .underrun ++ [.fire])).arms = 1 ∧
    underrunStep ⟨true, true, 0, 1⟩ .underrun = ⟨true, true, 0, 1⟩ :=
  ⟨(underrun_single_restart 3 (by decide)).1,
    (underrun_single_restart 3 (by decide)).2.1,
    (underrun_single_restart 3 (by decide)).2.2 ⟨true, true, 0, 1⟩ rfl⟩

/-- The fields of a yielded match result that the generator logic inspects:
the confirmed flag (MatchResult.match), the match region, the first-pass
matched flag and the first-pass certainty. -/
structure FMItem where
  confirmed : Bool
  region : Region
  firstPass : Bool
  certainty : ℚ
deriving DecidableEq

/-- DeviceUnderTest.match_all (_stbt/core.py lines 453 to 464): iterate over
the results of _match_all, yielding each truthy result and stopping at the
first falsey result without yielding it. -/
def matchAllLoop : List FMItem → List FMItem
  | [] => []
  | r :: rest => if r.confirmed then r :: matchAllLoop rest else []

/-- C10: match_all yields exactly the truthy results of the underlying
search and never yields the terminating falsey result; in particular, when
the underlying search finds nothing and yields only the falsey terminator,
match_all yields the empty sequence. -/
theorem matchAll_truthy_only :
    (∀ l : List FMItem, matchAllLoop l = l.takeWhile (·.confirmed)) ∧
    (∀ (l : List FMItem) (r : FMItem), r ∈ matchAllLoop l → r.confirmed = true) ∧
    (∀ (t : List FMItem) (f : FMItem),
        (∀ r ∈ t, r.confirmed = true) → f.confirmed = false →
        matchAllLoop (t ++ [f]) = t) ∧
    (∀ f : FMItem, f.confirmed = false → matchAllLoop [f] = []) := by
  have htake : ∀ l : List FMItem, matchAllLoop l = l.takeWhile (·.confirmed) := by
    intro l
    induction l with
    | nil => rfl
    | cons r rest ih =>
        by_cases h : r.confirmed <;>
          simp [matchAllLoop, List.takeWhile_cons, h, ih]
  refine ⟨htake, ?_, ?_, ?_⟩
  · intro l r hmem
    induction l with
    | nil => simp [matchAllLoop] at hmem
    | cons q rest ih =>
        rw [matchAllLoop] at hmem
        split at hmem
        · rcases List.mem_cons.mp hmem with h | h
          · subst h; assumption
          · exact ih h
        · simp at hmem
  · intro t f ht hf
    induction t with
    | nil => simp [matchAllLoop, hf]
    | cons r rest ih =>
        have hr := ht r (List.mem_cons_self r rest)
        have ih2 := ih fun q hq => ht q (List.mem_cons_of_mem r hq)
        simpa [matchAllLoop, hr] using ih2
  · intro f hf
    simp [matchAllLoop, hf]

theorem matchAll_truthy_only_witness :
    matchAllLoop [⟨true, Region.mk' 0 0 1 1, true, 1⟩,
        ⟨false, Region.mk' 2 2 1 1, false, 0⟩] =
      [⟨true, Region.mk' 0 0 1 1, true, 1⟩] ∧
    matchAllLoop [⟨false, Region.mk' 2 2 1 1, false, 0⟩] = [] := by
  constructor
  · exact matchAll_truthy_only.2.2.1 [⟨true, Region.mk' 0 0 1 1, true, 1⟩]
      ⟨false, Region.mk' 2 2 1 1, false, 0⟩ (by decide) (by decide)
  · exact matchAll_truthy_only.2.2.2 ⟨false, Region.mk' 2 2 1 1, false, 0⟩
      (by decide)

/-- A pixel of a video frame or template in BGR channel order. -/
abbrev Px := Nat × Nat × Nat

/-- A three-channel image: rows of BGR pixels. -/
abbrev Img := List (List Px)

/-- A single-channel intensity image. -/
abbrev GImg := List (List Nat)

def Img.height (img : Img) : Nat := img.length

def Img.width (img : Img) : Nat := (img.headD []).length

def GImg.get (g : GImg) (y x : Nat) : Nat := (g.getD y []).getD x 0

def GImg.gHeight (g : GImg) : Nat := g.length

def GImg.gWidth (g : GImg) : Nat := (g.headD []).length

def GImg.ofFn (h w : Nat) (f : Nat → Nat → Nat) : GImg :=
  (List.range h).map fun y => (List.range w).map fun x => f y x

/-- Numpy slicing image[y0:y1, x0:x1]. -/
def cropImg (img : Img) (y0 y1 x0 x1 : Nat) : Img :=
  ((img.drop y0).take (y1 - y0)).map fun row => (row.drop x0).take (x1 - x0)

def grayPx (p : Px) : Nat := grayBGR p.1 p.2.1 p.2.2

/-- Model of the external cv2.cvtColor with COLOR_BGR2GRAY. -/
def toGray (img : Img) : GImg := img.map (List.map grayPx)

def gimgMin (g : GImg) : Nat := (g.map fun row => row.foldl min 255).foldl min 255

def gimgMax (g : GImg) : Nat := (g.map fun row => row.foldl max 0).foldl max 0

/-- Model of the external cv2.normalize with NORM_MINMAX over 0..255:
rescale the values so that the minimum maps to 0 and the maximum to 255
(rounding to nearest); a constant image maps to zero. -/
def normalizeMinMax (g : GImg) : GImg :=
  let lo := gimgMin g
  let hi := gimgMax g
  if hi = lo then g.map (List.map fun _ => 0)
  else g.map (List.map fun v => ((v - lo) * 255 * 2 + (hi - lo)) / ((hi - lo) * 2))

/-- Model of the external cv2.absdiff on single-channel uint8 images. -/
def gAbsdiff (a b : GImg) : GImg :=
  List.zipWith (fun ra rb => List.zipWith (fun x y => max x y - min x y) ra rb) a b

/-- Model of one pass of the external cv2.erode with the 3x3 elliptical
structuring element (a cross): each output pixel is the minimum of the
pixel and its in-bounds 4-neighbours (the default border value of erosion
is plus infinity, so out-of-bounds neighbours do not contribute; 255 is an
upper bound of all uint8 values). -/
def erodeOnce (g : GImg) : GImg :=
  GImg.ofFn g.gHeight g.gWidth fun y x =>
    min (g.get y x)
      (min (if y = 0 then 255 else g.get (y - 1) x)
        (min (if y + 1 < g.gHeight then g.get (y + 1) x else 255)
          (min (if x = 0 then 255 else g.get y (x - 1))
            (if x + 1 < g.gWidth then g.get y (x + 1) else 255))))

def erodeN : Nat → GImg → GImg
  | 0, g => g
  | n + 1, g => erodeN n (erodeOnce g)

/-- Model of the external cv2.countNonZero. -/
def gCountNonZero (g : GImg) : Nat :=
  (g.map fun row => row.countP fun v => decide (v ≠ 0)).sum

inductive MatchMethod where
  | sqdiffNormed
  | ccorrNormed
  | ccoeffNormed
deriving DecidableEq

inductive ConfirmMethod where
  | cnone
  | absdiff
  | normedAbsdiff
deriving DecidableEq

/-- The fields of MatchParameters (_stbt/core.py lines 132 to 158); the
constructor validates only that the two method names are in their allowed
sets, so any rational thresholds are accepted. -/
structure MatchParams where
  matchMethod : MatchMethod
  matchThreshold : ℚ
  confirmMethod : ConfirmMethod
  confirmThreshold : ℚ
  erodePasses : Nat

/-- The second pass _confirm_match (_stbt/core.py lines 1830 to 1867): with
confirm_method none, confirm unconditionally; otherwise crop the candidate
region from the frame, convert crop and template to grayscale, for
normed-absdiff rescale each to the full intensity range, take the absolute
per-pixel difference, threshold it with THRESH_BINARY at
int(confirm_threshold * 255) (so a pixel survives iff its difference is
strictly greater than that integer), erode erode_passes times with the 3x3
elliptical element, and confirm iff cv2.countNonZero of the result is 0. -/
def confirmMatch (image : Img) (region : Region) (template : Img)
    (p : MatchParams) : Bool :=
  if p.confirmMethod = .cnone then true
  else
    let roi := cropImg image region.y.toNat region.bottom.toNat
      region.x.toNat region.right.toNat
    let imageGray := toGray roi
    let templateGray := toGray template
    let imageGray2 := if p.confirmMethod = .normedAbsdiff
      then normalizeMinMax imageGray else imageGray
    let templateGray2 := if p.confirmMethod = .normedAbsdiff
      then normalizeMinMax templateGray else templateGray
    let absdiff := gAbsdiff imageGray2 templateGray2
    let thresholded := absdiff.map (List.map fun (v : Nat) =>
      if ⌊p.confirmThreshold * 255⌋ < (v : Int) then 255 else 0)
    let eroded := erodeN p.erodePasses thresholded
    decide (gCountNonZero eroded = 0)

/-- The confirmation pass as the spec words it (section 4.2.1): if
confirm_method is none, confirm unconditionally; otherwise crop the
candidate region, convert both to single-channel intensity, for
normed-absdiff independently rescale each to the full intensity range,
compute the absolute per-pixel difference, threshold it at
confirm_threshold times the maximum intensity (a pixel is kept iff its
difference exceeds that rational cutoff), erode erode_passes times with the
3x3 elliptical element, and confirm iff zero non-zero pixels remain. -/
def confirmMatchSpec (image : Img) (region : Region) (template : Img)
    (p : MatchParams) : Bool :=
  match p.confirmMethod with
  | .cnone => true
  | m =>
    let roi := cropImg image region.y.toNat region.bottom.toNat
      region.x.toNat region.right.toNat
    let rescale : GImg → GImg := fun g =>
      if m = .normedAbsdiff then normalizeMinMax g else g
    let diff := gAbsdiff (rescale (toGray roi)) (rescale (toGray template))
    let kept := diff.map (List.map fun (v : Nat) =>
      if p.confirmThreshold * 255 < (v : ℚ) then 255 else 0)
    let eroded := erodeN p.erodePasses kept
    eroded.all fun row => row.all fun v => decide (v = 0)

theorem gCountNonZero_eq_zero_iff (g : GImg) :
    gCountNonZero g = 0 ↔ (g.all fun row => row.all fun v => decide (v = 0)) = true := by
  simp only [gCountNonZero, List.sum_eq_zero_iff, List.mem_map, List.all_eq_true,
    decide_eq_true_eq]
  constructor
  · intro h row hrow v hv
    have := h (row.countP fun v => decide (v ≠ 0)) ⟨row, hrow, rfl⟩
    rw [List.countP_eq_zero] at this
    have := this v hv
    simpa using this
  · rintro h n ⟨row, hrow, rfl⟩
    rw [List.countP_eq_zero]
    intro v hv
    simpa using h row hrow v hv

theorem thresholdPx_eq (ct : ℚ) (v : Nat) :
    (if ⌊ct * 255⌋ < (v : Int) then (255 : Nat) else 0) =
      (if ct * 255 < (v : ℚ) then 255 else 0) := by
  have : ⌊ct * 255⌋ < (v : Int) ↔ ct * 255 < (v : ℚ) := by
    rw [Int.floor_lt]
    push_cast
    rfl
  by_cases h : ct * 255 < (v : ℚ)
  · rw [if_pos (this.mpr h), if_pos h]
  · rw [if_neg (fun hc => h (this.mp hc)), if_neg h]

/-- C7: when confirm_method is none every provisional first-pass match is
confirmed unconditionally; otherwise the candidate region is cropped from
the frame, crop and template are converted to single-channel intensity
(and, for normed-absdiff, independently rescaled to the full intensity
range), the absolute per-pixel difference is thresholded at
confirm_threshold times the maximum intensity and eroded erode_passes times
with a 3x3 elliptical structuring element, and the match is confirmed iff
zero non-zero pixels remain after erosion: the implemented confirmation
pass agrees with this specification on every input. -/
theorem confirmMatch_spec_equiv :
    (∀ (image : Img) (region : Region) (template : Img) (mm : MatchMethod)
        (mt ct : ℚ) (ep : Nat),
        confirmMatch image region template ⟨mm, mt, .cnone, ct, ep⟩ = true) ∧
    (∀ (image : Img) (region : Region) (template : Img) (p : MatchParams),
        confirmMatch image region template p =
          confirmMatchSpec image region template p) := by
  constructor
  · intro image region template mm mt ct ep
    rfl
  · intro image region template p
    cases hm : p.confirmMethod with
    | cnone => simp [confirmMatch, confirmMatchSpec, hm]
    | absdiff =>
        simp only [confirmMatch, confirmMatchSpec, hm]
        rw [if_neg (by decide : ¬(ConfirmMethod.absdiff = .cnone))]
        simp only [if_neg (by decide : ¬(ConfirmMethod.absdiff = .normedAbsdiff))]
        rw [show (fun (v : Nat) =>
            if ⌊p.confirmThreshold * 255⌋ < (v : Int) then (255 : Nat) else 0) =
            (fun (v : Nat) => if p.confirmThreshold * 255 < (v : ℚ) then 255 else 0)
          from funext fun v => thresholdPx_eq p.confirmThreshold v]
        rw [Bool.eq_iff_iff, decide_eq_true_iff]
        exact gCountNonZero_eq_zero_iff _
    | normedAbsdiff =>
        simp only [confirmMatch, confirmMatchSpec, hm]
        rw [if_neg (by decide : ¬(ConfirmMethod.normedAbsdiff = .cnone))]
        rw [show (fun (v : Nat) =>
            if ⌊p.confirmThreshold * 255⌋ < (v : Int) then (255 : Nat) else 0) =
            (fun (v : Nat) => if p.confirmThreshold * 255 < (v : ℚ) then 255 else 0)
          from funext fun v => thresholdPx_eq p.confirmThreshold v]
        rw [Bool.eq_iff_iff, decide_eq_true_iff]
        exact gCountNonZero_eq_zero_iff _

/-- An image shape as numpy reports it: (height, width). -/
abbrev Sz := Nat × Nat

/-- Model of the shape behaviour of the external cv2.pyrDown: the default
output size is ((w + 1) / 2, (h + 1) / 2) with integer division. -/
def pyrDownSz (s : Sz) : Sz := ((s.1 + 1) / 2, (s.2 + 1) / 2)

/-- The loop body of _build_pyramid (_stbt/core.py lines 1792 to 1796) over
image shapes: starting from the current image, run up to n more iterations;
each iteration stops if the current (last appended) level is smaller than
20px in either dimension, and otherwise appends its 2x downsample. -/
def pyramidGo (cur : Sz) : Nat → List Sz
  | 0 => [cur]
  | n + 1 =>
      cur :: (if cur.1 < 20 ∨ cur.2 < 20 then [] else pyramidGo (pyrDownSz cur) n)

/-- _build_pyramid (_stbt/core.py lines 1780 to 1797) over image shapes:
pyramid = [image] followed by at most levels - 1 downsampled copies. -/
def buildPyramid (sz : Sz) (levels : Nat) : List Sz :=
  pyramidGo sz (levels - 1)

theorem pyramidGo_ne_nil (c : Sz) (n : Nat) : pyramidGo c n ≠ [] := by
  cases n <;> simp [pyramidGo]

theorem pyramidGo_head (c : Sz) (n : Nat) : (pyramidGo c n).headD (0, 0) = c := by
  cases n <;> simp [pyramidGo]

theorem pyramidGo_length_le (c : Sz) (n : Nat) : (pyramidGo c n).length ≤ n + 1 := by
  induction n generalizing c with
  | zero => simp [pyramidGo]
  | succ m ih =>
      rw [pyramidGo]
      split
      · simp
      · simpa [Nat.succ_le_succ_iff] using ih (pyrDownSz c)

theorem pyrDownSz_mono {a b : Sz} (h1 : a.1 ≤ b.1) (h2 : a.2 ≤ b.2) :
    (pyrDownSz a).1 ≤ (pyrDownSz b).1 ∧ (pyrDownSz a).2 ≤ (pyrDownSz b).2 :=
  ⟨Nat.div_le_div_right (by omega), Nat.div_le_div_right (by omega)⟩

theorem pyramidGo_length_mono (n : Nat) :
    ∀ t i : Sz, t.1 ≤ i.1 → t.2 ≤ i.2 →
      (pyramidGo i ((pyramidGo t n).length - 1)).length = (pyramidGo t n).length := by
  induction n with
  | zero => intro t i _ _; simp [pyramidGo]
  | succ m ih =>
      intro t i h1 h2
      rw [pyramidGo]
      by_cases hbad : t.1 < 20 ∨ t.2 < 20
      · simp [hbad, pyramidGo]
      · rw [if_neg hbad]
        have hne := pyramidGo_ne_nil (pyrDownSz t) m
        have hlen : 1 ≤ (pyramidGo (pyrDownSz t) m).length :=
          Nat.one_le_iff_ne_zero.mpr (by simpa [List.length_eq_zero] using hne)
        have hrec := ih (pyrDownSz t) (pyrDownSz i)
          (pyrDownSz_mono h1 h2).1 (pyrDownSz_mono h1 h2).2
        have hgoodi : ¬(i.1 < 20 ∨ i.2 < 20) := by omega
        obtain ⟨m0, hm0⟩ : ∃ m0, (pyramidGo (pyrDownSz t) m).length = m0 + 1 :=
          ⟨(pyramidGo (pyrDownSz t) m).length - 1, by omega⟩
        simp only [List.length_cons, hm0, Nat.add_sub_cancel, pyramidGo,
          if_neg hgoodi]
        rw [hm0] at hrec
        simp only [Nat.add_sub_cancel] at hrec
        simp [hrec]

theorem pyramidGo_ge20 (n : Nat) :
    ∀ (c : Sz) (i : Nat), i + 1 < (pyramidGo c n).length →
      20 ≤ ((pyramidGo c n).getD i (0, 0)).1 ∧
      20 ≤ ((pyramidGo c n).getD i (0, 0)).2 := by
  induction n with
  | zero => intro c i h; simp [pyramidGo] at h
  | succ m ih =>
      intro c i h
      rw [pyramidGo] at h ⊢
      by_cases hbad : c.1 < 20 ∨ c.2 < 20
      · rw [if_pos hbad] at h
        simp at h
      · rw [if_neg hbad] at h ⊢
        cases i with
        | zero => simpa using And.intro (by omega) (by omega)
        | succ j =>
            simp only [List.length_cons, Nat.succ_lt_succ_iff] at h
            simpa using ih (pyrDownSz c) j h

/-- C6 counterexample: for a 30x30 image with 2 configured levels the
pyramid is [(30, 30), (15, 15)]: the construction appends a level whose
dimensions (15px) are already below 20px before stopping, so it is not the
case that no level has height or width below 20px, nor that construction
stops before adding a level that would fall below 20px. -/
theorem buildPyramid_small_level_counterexample :
    buildPyramid (30, 30) 2 = [(30, 30), (15, 15)] ∧
    ((buildPyramid (30, 30) 2).getD 1 (0, 0)).1 < 20 ∧
    1 < (buildPyramid (30, 30) 2).length := by
  decide

/-- C6 amended: pyramid construction stops adding levels once either
dimension of the last-built level has fallen below 20px or the configured
level count is reached, so every level other than the last has both
dimensions at least 20px (the final level may be smaller, as may level 0
itself for a small image); and for a frame at least as large as the
template in both dimensions, the frame pyramid built with the template
pyramid length has exactly the same length as the template pyramid. -/
theorem buildPyramid_levels_spec :
    (∀ (sz : Sz) (levels i : Nat), i + 1 < (buildPyramid sz levels).length →
        20 ≤ ((buildPyramid sz levels).getD i (0, 0)).1 ∧
        20 ≤ ((buildPyramid sz levels).getD i (0, 0)).2) ∧
    (∀ (sz : Sz) (levels : Nat), (buildPyramid sz levels).length ≤ max 1 levels) ∧
    (∀ (t i : Sz) (levels : Nat), t.1 ≤ i.1 → t.2 ≤ i.2 →
        (buildPyramid i (buildPyramid t levels).length).length =
          (buildPyramid t levels).length) := by
  refine ⟨fun sz levels i h => pyramidGo_ge20 (levels - 1) sz i h, ?_, ?_⟩
  · intro sz levels
    have := pyramidGo_length_le sz (levels - 1)
    unfold buildPyramid
    omega
  · intro t i levels h1 h2
    exact pyramidGo_length_mono (levels - 1) t i h1 h2

theorem buildPyramid_levels_spec_witness :
    (20 ≤ ((buildPyramid (100, 80) 3).getD 1 (0, 0)).1 ∧
      20 ≤ ((buildPyramid (100, 80) 3).getD 1 (0, 0)).2) ∧
    (buildPyramid (100, 80) 3).length ≤ max 1 3 ∧
    (buildPyramid (200, 160) (buildPyramid (100, 80) 3).length).length =
      (buildPyramid (100, 80) 3).length := by
  refine ⟨buildPyramid_levels_spec.1 (100, 80) 3 1 (by decide),
    buildPyramid_levels_spec.2.1 (100, 80) 3,
    buildPyramid_levels_spec.2.2 (100, 80) (200, 160) 3 (by decide) (by decide)⟩

/-- A heatmap or region-of-interest mask: a 2-D matrix of rationals. -/
abbrev Mat := List (List ℚ)

def Mat.mHeight (m : Mat) : Nat := m.length

def Mat.mWidth (m : Mat) : Nat := (m.headD []).length

/-- Model of the external cv2.pyrUp: each dimension doubles; content is
modelled as nearest-neighbour doubling (only the shape of the
region-of-interest mask affects the control flow modelled here). -/
def pyrUpMat (m : Mat) : Mat :=
  (m.map fun row => (row.map fun v => [v, v]).flatten).flatMap fun r => [r, r]

/-- The region-of-interest handling at the top of each level iteration of
_find_candidate_matches (_stbt/core.py lines 1646 to 1650): a mask from the
previous (coarser) level is dropped (falling back to searching the whole
image) when either of its dimensions is below 3px, and is otherwise
upsampled for the current level. -/
def nextRoiMask : Option Mat → Option Mat
  | none => none
  | some m =>
      if m.mHeight < 3 ∨ m.mWidth < 3 then none else some (pyrUpMat m)

theorem pyrUpMat_height (m : Mat) : (pyrUpMat m).mHeight = 2 * m.mHeight := by
  induction m with
  | nil => rfl
  | cons row rest ih =>
      simp only [pyrUpMat, Mat.mHeight, List.map_cons, List.flatMap_cons,
        List.length_append, List.length_cons, List.length_nil] at ih ⊢
      omega

theorem pyrUpMat_width (m : Mat) : (pyrUpMat m).mWidth = 2 * m.mWidth := by
  cases m with
  | nil => rfl
  | cons row rest =>
      simp only [pyrUpMat, Mat.mWidth, List.map_cons, List.flatMap_cons,
        List.cons_append, List.headD_cons]
      induction row with
      | nil => rfl
      | cons v vs ihr =>
          simp only [List.map_cons, List.flatten_cons, List.length_append,
            List.length_cons, List.length_nil] at ihr ⊢
          omega

/-- C5 counterexample: a 2x10 region-of-interest mask is dropped (the
search falls back to the whole image) although its upsampled version would
be 4x20, which is not smaller than 3px in either dimension: the fallback
is decided on the mask shape before upsampling, not after. -/
theorem roiMask_fallback_counterexample :
    nextRoiMask (some (List.replicate 2 (List.replicate 10 (255 : ℚ)))) = none ∧
    (pyrUpMat (List.replicate 2 (List.replicate 10 (255 : ℚ)))).mHeight = 4 ∧
    (pyrUpMat (List.replicate 2 (List.replicate 10 (255 : ℚ)))).mWidth = 20 ∧
    ¬((pyrUpMat (List.replicate 2 (List.replicate 10 (255 : ℚ)))).mHeight < 3 ∨
      (pyrUpMat (List.replicate 2 (List.replicate 10 (255 : ℚ)))).mWidth < 3) := by
  decide

/-- C5 amended: during the top-down pyramid search the engine falls back to
searching the whole image at the next finer level exactly when the
region-of-interest mask produced at the current level is smaller than 3px
in either dimension before upsampling (equivalently, when the upsampled
mask would be smaller than 6px in that dimension, since upsampling doubles
each dimension); otherwise the mask is upsampled and used. -/
theorem roiMask_fallback_pre_upsample :
    (∀ m : Mat, (nextRoiMask (some m) = none ↔ m.mHeight < 3 ∨ m.mWidth < 3)) ∧
    (∀ m : Mat, ¬(m.mHeight < 3 ∨ m.mWidth < 3) →
        nextRoiMask (some m) = some (pyrUpMat m)) ∧
    (∀ m : Mat, (pyrUpMat m).mHeight = 2 * m.mHeight ∧
        (pyrUpMat m).mWidth = 2 * m.mWidth) ∧
    nextRoiMask none = none := by
  refine ⟨?_, ?_, fun m => ⟨pyrUpMat_height m, pyrUpMat_width m⟩, rfl⟩
  · intro m
    constructor
    · intro h
      by_contra hc
      simp [nextRoiMask, hc] at h
    · intro h
      simp [nextRoiMask, h]
  · intro m h
    simp [nextRoiMask, h]

theorem roiMask_fallback_pre_upsample_witness :
    nextRoiMask (some [[(255 : ℚ), 0, 255], [0, 255, 0], [255, 0, 255]]) =
      some (pyrUpMat [[(255 : ℚ), 0, 255], [0, 255, 0], [255, 0, 255]]) ∧
    (nextRoiMask (some [[(255 : ℚ), 0]]) = none ↔
      Mat.mHeight [[(255 : ℚ), 0]] < 3 ∨ Mat.mWidth [[(255 : ℚ), 0]] < 3) :=
  ⟨roiMask_fallback_pre_upsample.2.1 _ (by decide),
    roiMask_fallback_pre_upsample.1 _⟩

def Mat.ofFn (h w : Nat) (f : Nat → Nat → ℚ) : Mat :=
  (List.range h).map fun y => (List.range w).map fun x => f y x

/-- The cells of one matrix row starting at column x, as ((x, y), value)
pairs in scan order. -/
def rowCells (y : Nat) : Nat → List ℚ → List ((Nat × Nat) × ℚ)
  | _, [] => []
  | x, v :: rest => ((x, y), v) :: rowCells y (x + 1) rest

def matCells : Nat → Mat → List ((Nat × Nat) × ℚ)
  | _, [] => []
  | y, row :: rest => rowCells y 0 row ++ matCells (y + 1) rest

/-- All cells of a matrix in row-major scan order. -/
def Mat.cells (m : Mat) : List ((Nat × Nat) × ℚ) := matCells 0 m

/-- Scan for the first strict minimum, as cv2.minMaxLoc does. -/
def scanMin : List ((Nat × Nat) × ℚ) → ((Nat × Nat) × ℚ) → ((Nat × Nat) × ℚ)
  | [], best => best
  | c :: rest, best => scanMin rest (if c.2 < best.2 then c else best)

/-- Scan for the first strict maximum, as cv2.minMaxLoc does. -/
def scanMax : List ((Nat × Nat) × ℚ) → ((Nat × Nat) × ℚ) → ((Nat × Nat) × ℚ)
  | [], best => best
  | c :: rest, best => scanMax rest (if best.2 < c.2 then c else best)

/-- Model of the external cv2.minMaxLoc: the first minimum cell and the
first maximum cell of the row-major scan, each as (location, value). -/
def Mat.minMax (m : Mat) : ((Nat × Nat) × ℚ) × ((Nat × Nat) × ℚ) :=
  match m.cells with
  | [] => (((0, 0), 0), ((0, 0), 0))
  | c :: cs => (scanMin cs c, scanMax cs c)

structure BestMatch where
  matched : Bool
  position : Nat × Nat
  certainty : ℚ
deriving DecidableEq

/-- _find_best_match_position (_stbt/core.py lines 1761 to 1777): for
sqdiff-normed the best match is the minimum location with certainty
1 - minimum value; for the correlation methods it is the maximum location
with certainty equal to the maximum value; matched iff the certainty is at
least the threshold. -/
def findBestMatchPosition (hm : Mat) (method : MatchMethod) (threshold : ℚ) :
    BestMatch :=
  match method with
  | .sqdiffNormed =>
      ⟨decide (threshold ≤ 1 - hm.minMax.1.2), hm.minMax.1.1, 1 - hm.minMax.1.2⟩
  | _ => ⟨decide (threshold ≤ hm.minMax.2.2), hm.minMax.2.1, hm.minMax.2.2⟩

def inRegionB (e : Region) (x y : Nat) : Bool :=
  decide (e.x ≤ (x : Int)) && decide ((x : Int) < e.right) &&
    decide (e.y ≤ (y : Int)) && decide ((y : Int) < e.bottom)

def maskRow (e : Region) (v : ℚ) (y : Nat) : Nat → List ℚ → List ℚ
  | _, [] => []
  | x, w :: rest => (if inRegionB e x y then v else w) :: maskRow e v y (x + 1) rest

def maskRows (e : Region) (v : ℚ) : Nat → Mat → Mat
  | _, [] => []
  | y, row :: rest => maskRow e v y 0 row :: maskRows e v (y + 1) rest

/-- Model of the external cv2.rectangle FILLED call at _stbt/core.py lines
1699 to 1704: every heatmap cell whose coordinates lie in
[e.x, e.right) x [e.y, e.bottom) is set to the mask value (the source
passes (e.right - 1, e.bottom - 1) as the inclusive bottom-right corner,
and cv2 clips the rectangle to the image). -/
def maskRect (hm : Mat) (e : Region) (v : ℚ) : Mat := maskRows e v 0 hm

/-- Modelled from the spec: Region.extend (in _stbt/types.py, not among the
sources) moves the x and y edges by the given deltas, keeping right and
bottom. -/
def Region.extend (r : Region) (dx dy : Int) : Region :=
  ⟨r.x + dx, r.y + dy, r.right, r.bottom⟩

/-- The exclusion rectangle of _find_candidate_matches line 1696:
region.extend(x=-(width - 1), y=-(height - 1)). -/
def excludeRegion (r : Region) : Region :=
  r.extend (-(r.width - 1)) (-(r.height - 1))

/-- The heatmap mask value of _find_candidate_matches lines 1697 to 1698:
255 for sqdiff-normed (whose best match is the minimum), 0 otherwise. -/
def maskValue (m : MatchMethod) : ℚ := if m = .sqdiffNormed then 255 else 0

/-- The per-level threshold of _find_candidate_matches lines 1661 to 1663:
relaxed by 0.2 above level 0 and clamped at 0. -/
def levelThreshold (mt : ℚ) (level : Nat) : ℚ :=
  max 0 (mt - if 0 < level then 1 / 5 else 0)

def maskCell (e : Region) (v : ℚ) (c : (Nat × Nat) × ℚ) : (Nat × Nat) × ℚ :=
  (c.1, if inRegionB e c.1.1 c.1.2 then v else c.2)

theorem rowCells_maskRow (e : Region) (v : ℚ) (y : Nat) (row : List ℚ) :
    ∀ x, rowCells y x (maskRow e v y x row) = (rowCells y x row).map (maskCell e v) := by
  induction row with
  | nil => intro x; rfl
  | cons w rest ih =>
      intro x
      simp only [maskRow, rowCells, List.map_cons, ih, maskCell]

theorem matCells_maskRows (e : Region) (v : ℚ) (m : Mat) :
    ∀ y, matCells y (maskRows e v y m) = (matCells y m).map (maskCell e v) := by
  induction m with
  | nil => intro y; rfl
  | cons row rest ih =>
      intro y
      simp only [maskRows, matCells, List.map_append, ih, rowCells_maskRow]

theorem cells_maskRect (hm : Mat) (e : Region) (v : ℚ) :
    (maskRect hm e v).cells = hm.cells.map (maskCell e v) :=
  matCells_maskRows e v hm 0

theorem scanMin_mem (cs : List ((Nat × Nat) × ℚ)) :
    ∀ c, scanMin cs c ∈ c :: cs := by
  induction cs with
  | nil => intro c; simp [scanMin]
  | cons d rest ih =>
      intro c
      rw [scanMin]
      by_cases h : d.2 < c.2
      · rw [if_pos h]
        rcases List.mem_cons.mp (ih d) with h2 | h2
        · rw [h2]; exact List.mem_cons_of_mem _ (List.mem_cons_self _ _)
        · exact List.mem_cons_of_mem _ (List.mem_cons_of_mem _ h2)
      · rw [if_neg h]
        rcases List.mem_cons.mp (ih c) with h2 | h2
        · rw [h2]; exact List.mem_cons_self _ _
        · exact List.mem_cons_of_mem _ (List.mem_cons_of_mem _ h2)

theorem scanMax_mem (cs : List ((Nat × Nat) × ℚ)) :
    ∀ c, scanMax cs c ∈ c :: cs := by
  induction cs with
  | nil => intro c; simp [scanMax]
  | cons d rest ih =>
      intro c
      rw [scanMax]
      by_cases h : c.2 < d.2
      · rw [if_pos h]
        rcases List.mem_cons.mp (ih d) with h2 | h2
        · rw [h2]; exact List.mem_cons_of_mem _ (List.mem_cons_self _ _)
        · exact List.mem_cons_of_mem _ (List.mem_cons_of_mem _ h2)
      · rw [if_neg h]
        rcases List.mem_cons.mp (ih c) with h2 | h2
        · rw [h2]; exact List.mem_cons_self _ _
        · exact List.mem_cons_of_mem _ (List.mem_cons_of_mem _ h2)

theorem minMax_mem (hm : Mat) (hne : hm.cells ≠ []) :
    hm.minMax.1 ∈ hm.cells ∧ hm.minMax.2 ∈ hm.cells := by
  cases hc : hm.cells with
  | nil => exact absurd hc hne
  | cons c cs =>
      simp only [Mat.minMax, hc]
      exact ⟨scanMin_mem cs c, scanMax_mem cs c⟩

theorem findBest_matched_cell (hm : Mat) (method : MatchMethod) (thr : ℚ)
    (hne : hm.cells ≠ []) (hthr : 0 ≤ thr)
    (hcond : method = .sqdiffNormed ∨ 0 < thr)
    (hmatched : (findBestMatchPosition hm method thr).matched = true) :
    ∃ val, ((findBestMatchPosition hm method thr).position, val) ∈ hm.cells ∧
      val ≠ maskValue method := by
  obtain ⟨hmin, hmax⟩ := minMax_mem hm hne
  cases method with
  | sqdiffNormed =>
      refine ⟨hm.minMax.1.2, ?_, ?_⟩
      · simpa [findBestMatchPosition] using hmin
      · simp only [findBestMatchPosition, decide_eq_true_eq] at hmatched
        have hle : hm.minMax.1.2 ≤ 1 - thr := by linarith
        intro hv
        rw [show maskValue MatchMethod.sqdiffNormed = 255 from rfl] at hv
        rw [hv] at hle
        linarith
  | ccorrNormed =>
      have hpos : 0 < thr := by
        rcases hcond with h | h
        · exact absurd h (by decide)
        · exact h
      refine ⟨hm.minMax.2.2, ?_, ?_⟩
      · simpa [findBestMatchPosition] using hmax
      · simp only [findBestMatchPosition, decide_eq_true_eq] at hmatched
        simp only [maskValue, if_neg (by decide : ¬(MatchMethod.ccorrNormed = .sqdiffNormed))]
        intro hv
        rw [hv] at hmatched
        linarith
  | ccoeffNormed =>
      have hpos : 0 < thr := by
        rcases hcond with h | h
        · exact absurd h (by decide)
        · exact h
      refine ⟨hm.minMax.2.2, ?_, ?_⟩
      · simpa [findBestMatchPosition] using hmax
      · simp only [findBestMatchPosition, decide_eq_true_eq] at hmatched
        simp only [maskValue, if_neg (by decide : ¬(MatchMethod.ccoeffNormed = .sqdiffNormed))]
        intro hv
        rw [hv] at hmatched
        linarith

theorem pos_in_exclude (px py : Nat) (tw th : Int) (h1 : 1 ≤ tw) (h2 : 1 ≤ th) :
    inRegionB (excludeRegion (Region.mk' (px : Int) (py : Int) tw th)) px py = true := by
  simp only [inRegionB, excludeRegion, Region.extend, Region.mk', Region.width,
    Region.height, Bool.and_eq_true, decide_eq_true_eq]
  omega

def aliveCount (hm : Mat) (v : ℚ) : Nat :=
  hm.cells.countP fun c => decide (c.2 ≠ v)

theorem countP_map_maskCell_le (e : Region) (v : ℚ) (l : List ((Nat × Nat) × ℚ)) :
    (l.map (maskCell e v)).countP (fun c => decide (c.2 ≠ v)) ≤
      l.countP fun c => decide (c.2 ≠ v) := by
  induction l with
  | nil => simp
  | cons d rest ih =>
      simp only [List.map_cons, List.countP_cons]
      have hd : (if decide ((maskCell e v d).2 ≠ v) = true then 1 else 0) ≤
          (if decide (d.2 ≠ v) = true then 1 else 0) := by
        by_cases h : inRegionB e d.1.1 d.1.2 = true
        · simp [maskCell, h]
        · simp [maskCell, h]
      omega

theorem aliveCount_maskRect_lt (hm : Mat) (e : Region) (v : ℚ)
    (cell : (Nat × Nat) × ℚ) (hmem : cell ∈ hm.cells)
    (hv : cell.2 ≠ v) (hin : inRegionB e cell.1.1 cell.1.2 = true) :
    aliveCount (maskRect hm e v) v < aliveCount hm v := by
  obtain ⟨s, t, hst⟩ := List.append_of_mem hmem
  have hcellv : (maskCell e v cell).2 = v := by simp [maskCell, hin]
  unfold aliveCount
  rw [cells_maskRect, hst, List.map_append, List.map_cons, List.countP_append,
    List.countP_cons, List.countP_append, List.countP_cons]
  have h1 := countP_map_maskCell_le e v s
  have h2 := countP_map_maskCell_le e v t
  have h3 : (if decide ((maskCell e v cell).2 ≠ v) = true then 1 else 0) = 0 := by
    simp [hcellv]
  have h4 : (if decide (cell.2 ≠ v) = true then 1 else 0) = 1 := by
    simp [hv]
  omega

theorem no_strict_anti (f : Nat → Nat) (h : ∀ n, f (n + 1) < f n) : False := by
  have key : ∀ n, f n + n ≤ f 0 := by
    intro n
    induction n with
    | zero => omega
    | succ m ih =>
        have := h m
        omega
  have := key (f 0 + 1)
  omega

/-- The inputs of _find_matches: the source frame, the template, the match
parameters, the configured match.pyramid_levels value (supplied by the
external config collaborator), and an oracle modelling the numeric output
of the external cv2.matchTemplate at each pyramid level for a given
region-of-interest mask (the engine control flow does not depend on those
numeric values). -/
structure FMInput where
  image : Img
  template : Img
  params : MatchParams
  levels : Nat
  tm : Nat → Option Mat → Nat → Nat → ℚ

def FMInput.tSz (inp : FMInput) : Sz := (inp.template.height, inp.template.width)

def FMInput.iSz (inp : FMInput) : Sz := (inp.image.height, inp.image.width)

/-- The preconditions under which _find_matches does not raise: the source
image is at least as large as the template in both dimensions (lines 1592
to 1593), the template is non-empty (lines 1594 to 1595), and the
configured pyramid level count is positive (lines 1638 to 1640); the
3-channel 8-bit requirements are structural in this model. -/
def FMInput.accepts (inp : FMInput) : Bool :=
  decide (inp.tSz.1 ≤ inp.iSz.1) && decide (inp.tSz.2 ≤ inp.iSz.2) &&
    decide (1 ≤ inp.tSz.1) && decide (1 ≤ inp.tSz.2) && decide (1 ≤ inp.levels)

/-- The shape of the heatmap produced at a pyramid level (see
_match_template lines 1717 to 1721): the level image shape minus the level
template shape plus one in each dimension. -/
def heatmapShape (inp : FMInput) (level : Nat) : Sz :=
  let tp := buildPyramid inp.tSz inp.levels
  let ip := buildPyramid inp.iSz tp.length
  let t := tp.getD level (0, 0)
  let i := ip.getD level (0, 0)
  (i.1 - t.1 + 1, i.2 - t.2 + 1)

/-- _match_template (lines 1712 to 1758): a heatmap of the proper shape
whose numeric content comes from the external cv2.matchTemplate, modelled
by the oracle. -/
def levelHeatmap (inp : FMInput) (level : Nat) (roi : Option Mat) : Mat :=
  Mat.ofFn (heatmapShape inp level).1 (heatmapShape inp level).2 (inp.tm level roi)

/-- Model of the cv2.threshold call of _find_candidate_matches lines 1673
to 1679 that derives the region-of-interest mask from a heatmap:
THRESH_BINARY_INV at 1 - threshold for sqdiff-normed, THRESH_BINARY at
threshold otherwise. -/
def roiFromHeatmap (method : MatchMethod) (threshold : ℚ) (hm : Mat) : Mat :=
  hm.map (List.map fun v =>
    match method with
    | MatchMethod.sqdiffNormed => if v ≤ 1 - threshold then (255 : ℚ) else 0
    | _ => if threshold < v then 255 else 0)

structure DescentResult where
  level : Nat
  matched : Bool
  position : Nat × Nat
  certainty : ℚ
  heatmap : Mat
  threshold : ℚ
deriving DecidableEq

/-- The top-down pyramid loop of _find_candidate_matches (lines 1645 to
1680): at each level the incoming region-of-interest mask is checked and
upsampled, the heatmap is computed, the relaxed threshold applied and the
best position found; the loop breaks at the first level that does not
match, and otherwise thresholds the heatmap into the mask for the next
finer level; the state of the last executed iteration is recorded. -/
def descentAux (inp : FMInput) : Option Mat → Nat → DescentResult
  | roiMask, 0 =>
      let hm := levelHeatmap inp 0 (nextRoiMask roiMask)
      let thr := levelThreshold inp.params.matchThreshold 0
      let b := findBestMatchPosition hm inp.params.matchMethod thr
      ⟨0, b.matched, b.position, b.certainty, hm, thr⟩
  | roiMask, l + 1 =>
      let hm := levelHeatmap inp (l + 1) (nextRoiMask roiMask)
      let thr := levelThreshold inp.params.matchThreshold (l + 1)
      let b := findBestMatchPosition hm inp.params.matchMethod thr
      if b.matched then
        descentAux inp (some (roiFromHeatmap inp.params.matchMethod thr hm)) l
      else ⟨l + 1, false, b.position, b.certainty, hm, thr⟩

/-- The full descent, starting at the coarsest level of the template
pyramid with no region-of-interest restriction (line 1643). -/
def descent (inp : FMInput) : DescentResult :=
  descentAux inp none ((buildPyramid inp.tSz inp.levels).length - 1)

structure CandState where
  heatmap : Mat
  best : BestMatch
  region : Region
deriving DecidableEq

/-- The level-0 exclusion loop of _find_candidate_matches (lines 1682 to
1709) as a stream of states: state 0 is the result of the pyramid descent,
with the region at the position upsampled by 2 to the power of the final
level (line 1683); state n + 1 masks the exclusion rectangle of state n
out of the heatmap and repeats the best-position search at the recorded
level-0 threshold, taking the region at the new best position. The
generator only consumes state n + 1 when state n matched. -/
def candState (inp : FMInput) : Nat → CandState
  | 0 =>
      let D := descent inp
      ⟨D.heatmap, ⟨D.matched, D.position, D.certainty⟩,
        Region.mk' ((D.position.1 * 2 ^ D.level : Nat) : Int)
          ((D.position.2 * 2 ^ D.level : Nat) : Int)
          (inp.tSz.2 : Int) (inp.tSz.1 : Int)⟩
  | n + 1 =>
      let p := candState inp n
      let hm := maskRect p.heatmap (excludeRegion p.region)
        (maskValue inp.params.matchMethod)
      let b := findBestMatchPosition hm inp.params.matchMethod (descent inp).threshold
      ⟨hm, b, Region.mk' (b.position.1 : Int) (b.position.2 : Int)
        (inp.tSz.2 : Int) (inp.tSz.1 : Int)⟩

/-- The nth tuple of the _find_matches generator (lines 1602 to 1612): the
first-pass result of candidate n together with the confirmation verdict
(confirmed iff first-pass matched and _confirm_match accepts the region). -/
def fmItem (inp : FMInput) (n : Nat) : FMItem :=
  let s := candState inp n
  ⟨s.best.matched && confirmMatch inp.image s.region inp.template inp.params,
    s.region, s.best.matched, s.best.certainty⟩

/-- What the _find_matches generator actually yields at index n: tuple n is
emitted exactly when every earlier tuple was confirmed (_find_matches
breaks after yielding the first unconfirmed tuple, and
_find_candidate_matches returns after yielding a first-pass miss, which is
in particular unconfirmed). -/
def fmEmitted (inp : FMInput) (n : Nat) : Option FMItem :=
  if (List.range n).all fun k => (fmItem inp k).confirmed then some (fmItem inp n)
  else none

/-- The shape the spec claims for the yielded sequence: zero or more
confirmed (truthy) results, then exactly one falsey result, then nothing. -/
def PrefixTruthy (inp : FMInput) : Prop :=
  ∃ N, (∀ k < N, ∃ it, fmEmitted inp k = some it ∧ it.confirmed = true) ∧
    (∃ it, fmEmitted inp N = some it ∧ it.confirmed = false) ∧
    (∀ m, N < m → fmEmitted inp m = none)

theorem descentAux_matched (inp : FMInput) :
    ∀ (l : Nat) (roiMask : Option Mat),
      (descentAux inp roiMask l).matched = true →
      ∃ roi, descentAux inp roiMask l =
        ⟨0,
          (findBestMatchPosition (levelHeatmap inp 0 roi) inp.params.matchMethod
            (levelThreshold inp.params.matchThreshold 0)).matched,
          (findBestMatchPosition (levelHeatmap inp 0 roi) inp.params.matchMethod
            (levelThreshold inp.params.matchThreshold 0)).position,
          (findBestMatchPosition (levelHeatmap inp 0 roi) inp.params.matchMethod
            (levelThreshold inp.params.matchThreshold 0)).certainty,
          levelHeatmap inp 0 roi,
          levelThreshold inp.params.matchThreshold 0⟩ := by
  intro l
  induction l with
  | zero => intro roiMask _; exact ⟨nextRoiMask roiMask, rfl⟩
  | succ m ih =>
      intro roiMask h
      rw [descentAux] at h ⊢
      by_cases hb : (findBestMatchPosition (levelHeatmap inp (m + 1) (nextRoiMask roiMask))
          inp.params.matchMethod (levelThreshold inp.params.matchThreshold (m + 1))).matched = true
      · rw [if_pos hb] at h ⊢
        exact ih _ h
      · rw [if_neg hb] at h
        simp at h

theorem pyramidGo_getD_zero (c : Sz) (n : Nat) : (pyramidGo c n).getD 0 (0, 0) = c := by
  cases n <;> simp [pyramidGo]

theorem heatmapShape_zero (inp : FMInput) :
    heatmapShape inp 0 = (inp.iSz.1 - inp.tSz.1 + 1, inp.iSz.2 - inp.tSz.2 + 1) := by
  simp only [heatmapShape, buildPyramid, pyramidGo_getD_zero]

theorem cells_ofFn_ne_nil (h w : Nat) (f : Nat → Nat → ℚ) (hh : 1 ≤ h) (hw : 1 ≤ w) :
    (Mat.ofFn h w f).cells ≠ [] := by
  obtain ⟨h0, rfl⟩ : ∃ h0, h = h0 + 1 := ⟨h - 1, by omega⟩
  obtain ⟨w0, rfl⟩ : ∃ w0, w = w0 + 1 := ⟨w - 1, by omega⟩
  simp only [Mat.ofFn, Mat.cells, List.range_succ_eq_map, List.map_cons, matCells,
    rowCells]
  simp

/-- C1 amended: for every frame and template accepted by the preconditions,
and provided the match threshold is positive or the match method is
sqdiff-normed, the sequence produced by the matching engine consists of
zero or more results with matched true followed by exactly one result with
matched false, after which the sequence ends (with a correlation method
and a zero match threshold the engine can instead yield confirmed matches
forever and never emit the falsey terminator, because the masked-out
heatmap value 0 still reaches the threshold). -/
theorem findMatches_prefixTruthy_of_pos_threshold (inp : FMInput)
    (hacc : inp.accepts = true)
    (hcond : inp.params.matchMethod = .sqdiffNormed ∨
      0 < inp.params.matchThreshold) :
    PrefixTruthy inp := by
  classical
  simp only [FMInput.accepts, Bool.and_eq_true, decide_eq_true_eq] at hacc
  obtain ⟨⟨⟨⟨hth, htw⟩, hh1⟩, hw1⟩, hl1⟩ := hacc
  have hthr0 : (0 : ℚ) ≤ levelThreshold inp.params.matchThreshold 0 :=
    le_max_left _ _
  have hlt0 : levelThreshold inp.params.matchThreshold 0 =
      max 0 inp.params.matchThreshold := by
    simp [levelThreshold]
  have hcond0 : inp.params.matchMethod = .sqdiffNormed ∨
      0 < levelThreshold inp.params.matchThreshold 0 := by
    rcases hcond with h | h
    · exact Or.inl h
    · right
      rw [hlt0]
      exact lt_max_of_lt_right h
  have hterm : ∃ n, (fmItem inp n).confirmed = false := by
    by_contra hall
    push_neg at hall
    have hallc : ∀ n, (fmItem inp n).confirmed = true := by
      intro n
      cases hb : (fmItem inp n).confirmed with
      | false => exact absurd hb (hall n)
      | true => rfl
    have hmat : ∀ n, (candState inp n).best.matched = true := by
      intro n
      have h := hallc n
      simp only [fmItem, Bool.and_eq_true] at h
      exact h.1
    have hD : (descent inp).matched = true := by
      have h := hmat 0
      simpa [candState] using h
    obtain ⟨roi0, hDeq⟩ := descentAux_matched inp
      ((buildPyramid inp.tSz inp.levels).length - 1) none hD
    have hDeq2 : descent inp =
        ⟨0,
          (findBestMatchPosition (levelHeatmap inp 0 roi0) inp.params.matchMethod
            (levelThreshold inp.params.matchThreshold 0)).matched,
          (findBestMatchPosition (levelHeatmap inp 0 roi0) inp.params.matchMethod
            (levelThreshold inp.params.matchThreshold 0)).position,
          (findBestMatchPosition (levelHeatmap inp 0 roi0) inp.params.matchMethod
            (levelThreshold inp.params.matchThreshold 0)).certainty,
          levelHeatmap inp 0 roi0,
          levelThreshold inp.params.matchThreshold 0⟩ := hDeq
    have hthrD : (descent inp).threshold =
        levelThreshold inp.params.matchThreshold 0 := by
      rw [hDeq2]
    have hc0 : candState inp 0 =
        ⟨levelHeatmap inp 0 roi0,
          findBestMatchPosition (levelHeatmap inp 0 roi0) inp.params.matchMethod
            (levelThreshold inp.params.matchThreshold 0),
          Region.mk'
            (((findBestMatchPosition (levelHeatmap inp 0 roi0) inp.params.matchMethod
              (levelThreshold inp.params.matchThreshold 0)).position.1 : Nat) : Int)
            (((findBestMatchPosition (levelHeatmap inp 0 roi0) inp.params.matchMethod
              (levelThreshold inp.params.matchThreshold 0)).position.2 : Nat) : Int)
            (inp.tSz.2 : Int) (inp.tSz.1 : Int)⟩ := by
      simp [candState, hDeq2]
    have hne : ∀ n, (candState inp n).heatmap.cells ≠ [] := by
      intro n
      induction n with
      | zero =>
          rw [hc0]
          show (levelHeatmap inp 0 roi0).cells ≠ []
          unfold levelHeatmap
          apply cells_ofFn_ne_nil
          · rw [heatmapShape_zero]
            exact Nat.le_add_left 1 _
          · rw [heatmapShape_zero]
            exact Nat.le_add_left 1 _
      | succ m ih =>
          show (maskRect (candState inp m).heatmap
            (excludeRegion (candState inp m).region)
            (maskValue inp.params.matchMethod)).cells ≠ []
          rw [cells_maskRect]
          simpa using ih
    have hbest : ∀ n, (candState inp n).best =
        findBestMatchPosition (candState inp n).heatmap inp.params.matchMethod
          (levelThreshold inp.params.matchThreshold 0) := by
      intro n
      cases n with
      | zero => rw [hc0]
      | succ m =>
          show findBestMatchPosition _ inp.params.matchMethod
            (descent inp).threshold = _
          rw [hthrD]
          rfl
    have hreg : ∀ n, (candState inp n).region =
        Region.mk' ((candState inp n).best.position.1 : Int)
          ((candState inp n).best.position.2 : Int)
          (inp.tSz.2 : Int) (inp.tSz.1 : Int) := by
      intro n
      cases n with
      | zero => rw [hc0]
      | succ m => rfl
    have hdec : ∀ n,
        aliveCount (candState inp (n + 1)).heatmap (maskValue inp.params.matchMethod) <
          aliveCount (candState inp n).heatmap (maskValue inp.params.matchMethod) := by
      intro n
      have hmatched : (findBestMatchPosition (candState inp n).heatmap
          inp.params.matchMethod
          (levelThreshold inp.params.matchThreshold 0)).matched = true := by
        rw [← hbest n]
        exact hmat n
      obtain ⟨val, hvmem, hvne⟩ := findBest_matched_cell (candState inp n).heatmap
        inp.params.matchMethod (levelThreshold inp.params.matchThreshold 0)
        (hne n) hthr0 hcond0 hmatched
      rw [← hbest n] at hvmem
      have hin : inRegionB (excludeRegion ((candState inp n).region))
          (candState inp n).best.position.1 (candState inp n).best.position.2 = true := by
        rw [hreg n]
        exact pos_in_exclude _ _ _ _ (by exact_mod_cast hw1) (by exact_mod_cast hh1)
      show aliveCount (maskRect (candState inp n).heatmap
          (excludeRegion (candState inp n).region)
          (maskValue inp.params.matchMethod)) (maskValue inp.params.matchMethod) <
        aliveCount (candState inp n).heatmap (maskValue inp.params.matchMethod)
      exact aliveCount_maskRect_lt (candState inp n).heatmap _ _
        ((candState inp n).best.position, val) hvmem hvne hin
    exact no_strict_anti
      (fun n => aliveCount (candState inp n).heatmap (maskValue inp.params.matchMethod))
      hdec
  refine ⟨Nat.find hterm, ?_, ?_, ?_⟩
  · intro k hk
    have hkc : (fmItem inp k).confirmed = true := by
      have hnot := Nat.find_min hterm hk
      cases hb : (fmItem inp k).confirmed with
      | false => exact absurd hb hnot
      | true => rfl
    have hall : ((List.range k).all fun j => (fmItem inp j).confirmed) = true := by
      simp only [List.all_eq_true, List.mem_range]
      intro j hj
      have hnot := Nat.find_min hterm (hj.trans hk)
      cases hb : (fmItem inp j).confirmed with
      | false => exact absurd hb hnot
      | true => rfl
    refine ⟨fmItem inp k, ?_, hkc⟩
    unfold fmEmitted
    rw [if_pos hall]
  · have hall : ((List.range (Nat.find hterm)).all
        fun j => (fmItem inp j).confirmed) = true := by
      simp only [List.all_eq_true, List.mem_range]
      intro j hj
      have hnot := Nat.find_min hterm hj
      cases hb : (fmItem inp j).confirmed with
      | false => exact absurd hb hnot
      | true => rfl
    refine ⟨fmItem inp (Nat.find hterm), ?_, Nat.find_spec hterm⟩
    unfold fmEmitted
    rw [if_pos hall]
  · intro m hm
    have hfalse : ¬(((List.range m).all fun j => (fmItem inp j).confirmed) = true) := by
      intro hall
      have h := (List.all_eq_true.mp hall) (Nat.find hterm) (List.mem_range.mpr hm)
      rw [Nat.find_spec hterm] at h
      exact Bool.false_ne_true h
    unfold fmEmitted
    rw [if_neg hfalse]

theorem candState_succ (inp : FMInput) (n : Nat) :
    candState inp (n + 1) =
      ⟨maskRect (candState inp n).heatmap (excludeRegion (candState inp n).region)
          (maskValue inp.params.matchMethod),
        findBestMatchPosition
          (maskRect (candState inp n).heatmap (excludeRegion (candState inp n).region)
            (maskValue inp.params.matchMethod))
          inp.params.matchMethod (descent inp).threshold,
        Region.mk'
          ((findBestMatchPosition
            (maskRect (candState inp n).heatmap (excludeRegion (candState inp n).region)
              (maskValue inp.params.matchMethod))
            inp.params.matchMethod (descent inp).threshold).position.1 : Int)
          ((findBestMatchPosition
            (maskRect (candState inp n).heatmap (excludeRegion (candState inp n).region)
              (maskValue inp.params.matchMethod))
            inp.params.matchMethod (descent inp).threshold).position.2 : Int)
          (inp.tSz.2 : Int) (inp.tSz.1 : Int)⟩ := rfl

/-- A concrete accepted input for witnesses: a 1x1 frame equal to the 1x1
template, sqdiff-normed with threshold 0.8, no confirmation; the heatmap
oracle reports a perfect match (sqdiff value 0). -/
def fmWitnessInput : FMInput :=
  ⟨[[(100, 100, 100)]], [[(100, 100, 100)]],
    ⟨.sqdiffNormed, 4 / 5, .cnone, 0, 1⟩, 2, fun _ _ _ _ => 0⟩

theorem findMatches_prefixTruthy_witness :
    FMInput.accepts fmWitnessInput = true ∧ PrefixTruthy fmWitnessInput :=
  ⟨by decide, findMatches_prefixTruthy_of_pos_threshold fmWitnessInput (by decide)
    (Or.inl rfl)⟩

/-- A concrete accepted input on which the engine never emits the falsey
terminator: a 1x1 frame equal to the 1x1 template, ccorr-normed with
match_threshold 0 and confirm_method none; the heatmap oracle reports
correlation 1 (and the masked-out heatmap value 0 still reaches the zero
threshold). -/
def fmCexInput : FMInput :=
  ⟨[[(128, 128, 128)]], [[(128, 128, 128)]],
    ⟨.ccorrNormed, 0, .cnone, 7 / 10, 1⟩, 2, fun _ _ _ _ => 1⟩

theorem fmCex_candState_succ : ∀ n, candState fmCexInput (n + 1) =
    ⟨[[0]], ⟨true, (0, 0), 0⟩, Region.mk' 0 0 1 1⟩ := by
  intro n
  induction n with
  | zero => decide
  | succ m ih =>
      rw [candState_succ, ih]
      decide

theorem fmCex_all_confirmed : ∀ n, (fmItem fmCexInput n).confirmed = true := by
  intro n
  cases n with
  | zero => decide
  | succ m =>
      show ((candState fmCexInput (m + 1)).best.matched &&
        confirmMatch fmCexInput.image (candState fmCexInput (m + 1)).region
          fmCexInput.template fmCexInput.params) = true
      rw [fmCex_candState_succ m]
      decide

/-- C1 counterexample: the input fmCexInput satisfies the preconditions of
the matching engine, yet with a correlation match method, a match threshold
of zero and no confirmation, every emitted result has matched true and the
falsey terminator is never emitted: the yielded sequence is not of the
claimed shape (zero or more truthy results followed by exactly one falsey
result). -/
theorem findMatches_terminator_counterexample :
    FMInput.accepts fmCexInput = true ∧ ¬PrefixTruthy fmCexInput := by
  refine ⟨by decide, ?_⟩
  rintro ⟨N, -, ⟨it, hit, hfalse⟩, -⟩
  have hcond : ((List.range N).all fun k => (fmItem fmCexInput k).confirmed) = true := by
    simp only [List.all_eq_true, List.mem_range]
    intro j _
    exact fmCex_all_confirmed j
  unfold fmEmitted at hit
  rw [if_pos hcond] at hit
  rw [← Option.some.inj hit] at hfalse
  rw [fmCex_all_confirmed N] at hfalse
  exact absurd hfalse (by decide)

/-- C2 amended: after yielding a confirmed match the engine repeats the
level-0 best-position search on the heatmap with the exclusion rectangle
masked out; the sequence terminates after any falsey result; and a result
is falsey exactly when its first pass fell below the match threshold or
the confirmation pass rejected the first-pass candidate, so a first-pass
match above the threshold that fails confirmation also terminates the
sequence (the terminating falsey result is then not below threshold). -/
theorem findMatches_repeat_and_termination (inp : FMInput) (n : Nat) (it : FMItem)
    (hemit : fmEmitted inp n = some it) :
    (it.confirmed = true →
      fmEmitted inp (n + 1) = some (fmItem inp (n + 1)) ∧
      (candState inp (n + 1)).heatmap =
        maskRect (candState inp n).heatmap (excludeRegion (candState inp n).region)
          (maskValue inp.params.matchMethod) ∧
      (candState inp (n + 1)).best =
        findBestMatchPosition ((candState inp (n + 1)).heatmap)
          inp.params.matchMethod (descent inp).threshold) ∧
    (it.confirmed = false → ∀ m, n < m → fmEmitted inp m = none) ∧
    (it.confirmed = false ↔
      it.firstPass = false ∨
        confirmMatch inp.image it.region inp.template inp.params = false) := by
  unfold fmEmitted at hemit
  by_cases hcond : ((List.range n).all fun k => (fmItem inp k).confirmed) = true
  · rw [if_pos hcond] at hemit
    have hit : it = fmItem inp n := (Option.some.inj hemit).symm
    subst hit
    refine ⟨fun hconf => ⟨?_, rfl, rfl⟩, fun hconf m hm => ?_, ?_⟩
    · have hcond2 : ((List.range (n + 1)).all fun k => (fmItem inp k).confirmed) = true := by
        rw [List.range_succ, List.all_append]
        simp only [List.all_cons, List.all_nil, Bool.and_true, Bool.and_eq_true]
        exact ⟨hcond, hconf⟩
      unfold fmEmitted
      rw [if_pos hcond2]
    · have hfalse : ¬(((List.range m).all fun k => (fmItem inp k).confirmed) = true) := by
        intro hall
        have h := (List.all_eq_true.mp hall) n (List.mem_range.mpr hm)
        rw [hconf] at h
        exact absurd h (by decide)
      unfold fmEmitted
      rw [if_neg hfalse]
    · show ((candState inp n).best.matched &&
          confirmMatch inp.image (candState inp n).region inp.template inp.params)
          = false ↔ _
      cases hb : (candState inp n).best.matched <;>
        cases hc : confirmMatch inp.image (candState inp n).region inp.template
          inp.params <;>
        simp [fmItem, hb, hc]
  · rw [if_neg hcond] at hemit
    exact absurd hemit (by simp)

theorem findMatches_repeat_and_termination_witness :
    fmEmitted fmWitnessInput 1 = some (fmItem fmWitnessInput 1) ∧
    (candState fmWitnessInput 1).heatmap =
      maskRect (candState fmWitnessInput 0).heatmap
        (excludeRegion (candState fmWitnessInput 0).region)
        (maskValue fmWitnessInput.params.matchMethod) ∧
    ((fmItem fmWitnessInput 0).confirmed = false ↔
      (fmItem fmWitnessInput 0).firstPass = false ∨
        confirmMatch fmWitnessInput.image (fmItem fmWitnessInput 0).region
          fmWitnessInput.template fmWitnessInput.params = false) := by
  have h := findMatches_repeat_and_termination fmWitnessInput 0
    (fmItem fmWitnessInput 0) (by decide)
  exact ⟨(h.1 (by decide)).1, (h.1 (by decide)).2.1, h.2.2⟩

/-- A concrete accepted input on which the first pass matches above the
threshold but the confirmation pass rejects the candidate: a 1x1 frame of
intensity 150 against a 1x1 template of intensity 128, sqdiff-normed with
threshold 0.8 (the oracle reports sqdiff value 0, certainty 1) and
absdiff confirmation with threshold 0.08 (the grayscale difference 22
exceeds the integer cutoff 20). -/
def fmCex2Input : FMInput :=
  ⟨[[(150, 150, 150)]], [[(128, 128, 128)]],
    ⟨.sqdiffNormed, 4 / 5, .absdiff, 2 / 25, 0⟩, 2, fun _ _ _ _ => 0⟩

/-- C2 counterexample: on the accepted input fmCex2Input the sequence
terminates at once with a falsey result whose first-pass flag is true and
whose first-pass certainty 1 is above the match threshold 0.8: the
confirmation pass rejected it, so it is not the case that the sequence
terminates only when a search iteration yields no first-pass match above
the match threshold, nor that the final false result is below threshold. -/
theorem findMatches_confirm_termination_counterexample :
    FMInput.accepts fmCex2Input = true ∧
    fmEmitted fmCex2Input 0 = some ⟨false, Region.mk' 0 0 1 1, true, 1⟩ ∧
    fmEmitted fmCex2Input 1 = none ∧
    fmCex2Input.params.matchThreshold ≤ 1 := by
  decide

end Stbt
